import Mathlib

/-!
Verification development for the execution runtime and event-provenance
subsystem of the marketing_strategy_multi workflow runtime: the observer /
event bus (`runtime/observability/observer.py`), the local thread-pool
executor (`runtime/executors/local/local_executor.py`), the Argo remote
executor (`runtime/executors/argo_workflows/workflow_agent.py`), and the
remote environment allow-list (`runtime/nodes.py`, `runtime/utils.py`).

Python dictionaries with a known key set are embedded as structures whose
fields are `Option`-valued where the key (or its value) may be absent;
missing-key (`KeyError`) and fallible paths are embedded with
`Option`/`Except`.
-/

set_option autoImplicit false

namespace MarketingRuntime

/-! Section: Observer and Observable (observer.py). -/

/-- One edge of the externally supplied langgraph graph: `edge.source` and
`edge.target` are agent names. -/
structure Edge where
  source : String
  target : String
deriving DecidableEq, Repr

/-- The read-only graph held by an `Observer` (only its edge list is
consulted by `Observer.update`). -/
structure ObsGraph where
  edges : List Edge
deriving DecidableEq, Repr

/-- The `details` dictionary stored inside each recorded observer event.
`agentPredecessor` is always a string (it defaults to the sentinel
`"__start__"`); the other entries may be `None`. -/
structure EventDetails where
  agentName : Option String
  agentPredecessor : String
  agentPhase : Option String
  executionID : Option String
  executionPhase : Option String
  error : Option String
deriving DecidableEq, Repr

/-- One event recorded in `Observer.events`. The `timestamp` field
(`datetime.now().isoformat()`) is ambient wall-clock state and is not
consulted by any code path modelled here, so it is omitted. -/
structure ObsEvent where
  source : String
  details : EventDetails
deriving DecidableEq, Repr

/-- The `event_data` dictionary passed to `Observer.update`; each key is
read with `.get`, so every entry may be absent. -/
structure EventData where
  agentName : Option String := none
  agentPhase : Option String := none
  executionID : Option String := none
  executionPhase : Option String := none
  error : Option String := none
deriving DecidableEq, Repr

/-- Observer state: an optional graph reference and the ordered event log. -/
structure Observer where
  graph : Option ObsGraph
  events : List ObsEvent
deriving DecidableEq, Repr

/-- The `node_parents` list of `Observer.update`:
`[edge.source for edge in self.graph.edges if edge.target == agent_name]`,
and `[]` when no graph is configured. Comparing a string edge target with
a possibly-absent `agent_name` is `some edge.target = agentName`
(in Python, `str == None` is `False`). -/
def nodeParents (graph : Option ObsGraph) (agentName : Option String) : List String :=
  match graph with
  | none => []
  | some g => (g.edges.filter (fun e => some e.target = agentName)).map Edge.source

/-- The scan of `Observer.update` over an event list, most recent first:
the first event whose `details.agentName` is a member of `parents` gives
the predecessor; `None in parents` is `False`; default `"__start__"`. -/
def scanPredecessor (parents : List String) : List ObsEvent → String
  | [] => "__start__"
  | e :: rest =>
    match e.details.agentName with
    | some p => if p ∈ parents then p else scanPredecessor parents rest
    | none => scanPredecessor parents rest

/-- Predecessor computation of `Observer.update`: build `node_parents`
from the graph and scan `reversed(self.events)`. -/
def computePredecessor (graph : Option ObsGraph) (events : List ObsEvent)
    (agentName : Option String) : String :=
  scanPredecessor (nodeParents graph agentName) events.reverse

/-- Model of `Observer.update(source, event_data)`: compute the predecessor from
the current log, build the event record, and append it to `self.events`. -/
def observerUpdate (obs : Observer) (src : String) (eventData : Option EventData) :
    Observer :=
  let agentName := eventData.bind EventData.agentName
  let pred := computePredecessor obs.graph obs.events agentName
  let ev : ObsEvent :=
    { source := src
      details :=
        { agentName := agentName
          agentPredecessor := pred
          agentPhase := eventData.bind EventData.agentPhase
          executionID := eventData.bind EventData.executionID
          executionPhase := eventData.bind EventData.executionPhase
          error := eventData.bind EventData.error } }
  { obs with events := obs.events ++ [ev] }

/-- Model of `Observer.get_latest_event`: last appended event, or none. -/
def getLatestEvent (obs : Observer) : Option ObsEvent :=
  obs.events.getLast?

/-- An abstract subscribed observer as seen by `Observable.notify_observers`:
whether its `update` raises, and how many events it has received. -/
structure SimpleObserver where
  raises : Bool
  received : Nat
deriving DecidableEq, Repr

/-- A successful `update` delivery to one observer. -/
def deliverEvent (o : SimpleObserver) : SimpleObserver :=
  { o with received := o.received + 1 }

/-- Model of `Observable.notify_observers`: `for observer in self.observers:
observer.update(source, event_data)` — a plain loop with no exception
handling. The result is the observer list after the call together with
whether an exception propagated out of the loop: an observer whose
`update` raises stops the loop at once, leaving it and every later
observer untouched. -/
def notifyObservers : List SimpleObserver → List SimpleObserver × Bool
  | [] => ([], false)
  | o :: rest =>
    if o.raises then (o :: rest, true)
    else
      let step := notifyObservers rest
      (deliverEvent o :: step.1, step.2)

/-! Section: ExecutionContext (runtime.py) and LocalExecutor (local_executor.py). -/

/-- The `Metadata` of an execution context (`runtime.py`): agent name, task
name (the in-flight registry key) and an optional description. -/
structure Metadata where
  agent_name : String
  name : String
  description : Option String := none
deriving DecidableEq, Repr

/-- An `ExecutionContext`: metadata, a backend-specific `spec`, and an
optional `status` dictionary with values of a backend-specific type
(`None` until an executor populates it). -/
structure ExecutionContext (SpecT StatusT : Type) where
  metadata : Metadata
  spec : SpecT
  status : Option (List (String × StatusT)) := none
deriving DecidableEq, Repr

/-- First value bound to key `k` in an association list embedding a Python
dictionary (insertions are modelled by prepending, so the first match is
the current binding). -/
def lookupKey {β : Type} (k : String) : List (String × β) → Option β
  | [] => none
  | (k2, v) :: rest => if k2 = k then some v else lookupKey k rest

/-- Spec dictionary as used by `LocalExecutor`: only the `node_functions`
key is consulted; the key may be absent. A zero-argument node callable is
embedded by the value it returns (the callable is an opaque external
collaborator), and the executor's invocation counter below records each
time the pool or the synchronous path actually calls one. -/
structure LocalSpec (α : Type) where
  node_functions : Option (List α) := none
deriving DecidableEq, Repr

/-- An execution context handed to `LocalExecutor`; its `status` holds
node-callable results (the synchronous path stores `{"output": ret}`). -/
abbrev LocalContext (α : Type) := ExecutionContext (LocalSpec α) α

/-- The `LocalExecutor` state: the `futures` registry mapping
`context.metadata.name` to the submitted task's resolved result (the
thread pool runs each submitted callable exactly once; `Future.result()`
then returns the stored value), plus a ghost counter of how many times a
node callable has been invoked. -/
structure LocalExecutor (α : Type) where
  futures : List (String × α) := []
  invocations : Nat := 0
deriving DecidableEq, Repr

/-- Errors raised by the local executor paths: the explicit
`Exception("node_function not found in spec")`, the `IndexError` from
`node_functions[0]` on an empty list, the `TypeError` from subscripting a
`None` status, and a dictionary `KeyError`. -/
inductive LocalErr
  | specError
  | indexError
  | statusNoneError
  | keyError (k : String)
deriving DecidableEq, Repr

/-- Model of `LocalExecutor.run`: require `"node_functions" in context.spec`; in
async mode submit `node_functions[0]` to the pool and register the future
under `context.metadata.name` (the context, in particular its `status`,
is not touched); in sync mode call it and store `{"output": ret}` in
`context.status`. -/
def localRun {α : Type} (ex : LocalExecutor α) (ctx : LocalContext α)
    (asyncMode : Bool) : Except LocalErr (LocalExecutor α × LocalContext α) :=
  match ctx.spec.node_functions with
  | none => .error .specError
  | some fns =>
    match fns with
    | [] => .error .indexError
    | f :: _ =>
      if asyncMode then
        .ok ({ futures := (ctx.metadata.name, f) :: ex.futures
               invocations := ex.invocations + 1 }, ctx)
      else
        .ok ({ ex with invocations := ex.invocations + 1 },
             { ctx with status := some [("output", f)] })

/-- Model of `LocalExecutor.get_results`: if no future is registered under
`context.metadata.name`, return `context.status["output"]` (raising when
`status` is `None` or lacks the key); otherwise return the registered
future's result. Neither branch invokes a node callable or mutates the
executor, so the executor state is returned unchanged. -/
def localGetResults {α : Type} (ex : LocalExecutor α) (ctx : LocalContext α) :
    Except LocalErr (LocalExecutor α × α) :=
  match lookupKey ctx.metadata.name ex.futures with
  | some fut => .ok (ex, fut)
  | none =>
    match ctx.status with
    | none => .error .statusNoneError
    | some st =>
      match lookupKey "output" st with
      | none => .error (.keyError "output")
      | some v => .ok (ex, v)

/-! Section: remote environment allow-list (utils.py, nodes.py). -/

/-- The fixed proxy/telemetry allow-list `common_envs` from
`runtime/utils.py`. -/
def common_envs : List String :=
  ["HTTP_PROXY", "HTTPS_PROXY", "NO_PROXY",
   "http_proxy", "https_proxy", "no_proxy",
   "OPENAI_HOST", "OPENAI_MODEL", "WORKFLOW_NAME", "TELEMETRY_ENDPOINT"]

/-- Python dictionary assignment `env[k] = v` on an association list with
unique keys: the binding for `k` is replaced. -/
def setEnv (env : List (String × String)) (k v : String) : List (String × String) :=
  (k, v) :: env.filter (fun p => p.1 ≠ k)

/-- Character-list prefix test used to embed Python `str.startswith`. -/
def isPrefixList : List Char → List Char → Bool
  | [], _ => true
  | _ :: _, [] => false
  | c :: cs, d :: ds => c = d && isPrefixList cs ds

/-- Model of Python `name.startswith(pre)`. -/
def strStartsWith (s pre : String) : Bool :=
  isPrefixList pre.toList s.toList

/-- The `additional_env_vars` mapping built by `Nodes._run_node_remote`:
copy the process environment, set `WORKFLOW_NAME` to the workflow
correlation id, and keep exactly the entries whose name starts with
`"OVAL_"` or is a member of `common_envs`. -/
def buildAdditionalEnvVars (osEnv : List (String × String)) (workflowName : String) :
    List (String × String) :=
  (setEnv osEnv "WORKFLOW_NAME" workflowName).filter
    (fun p => strStartsWith p.1 "OVAL_" || decide (p.1 ∈ common_envs))

/-! Section: JSON values and json.loads (used by ArgoExecutor._extract_output). -/

/-- JSON values as produced by `json.loads` on the workflow output
parameter (integer numerals suffice for the payloads modelled here). -/
inductive Json
  | null
  | bool (b : Bool)
  | num (n : Int)
  | str (s : String)
  | arr (elems : List Json)
  | obj (fields : List (String × Json))

/-- Drop leading JSON whitespace. -/
def skipWs : List Char → List Char
  | [] => []
  | c :: rest =>
    if c = ' ' ∨ c = '\n' ∨ c = '\t' ∨ c = '\r' then skipWs rest else c :: rest

/-- Value of a decimal digit character, if any. -/
def digitVal (c : Char) : Option Nat :=
  if '0' ≤ c ∧ c ≤ '9' then some (c.toNat - '0'.toNat) else none

/-- Consume a run of decimal digits, accumulating their value. -/
def parseNatChars (acc : Nat) : List Char → Nat × List Char
  | [] => (acc, [])
  | c :: rest =>
    match digitVal c with
    | some d => parseNatChars (acc * 10 + d) rest
    | none => (acc, c :: rest)

/-- Translate a backslash escape inside a JSON string literal. -/
def escChar (c : Char) : Char :=
  if c = 'n' then '\n' else if c = 't' then '\t' else if c = 'r' then '\r' else c

/-- Body of a JSON string literal after the opening quote: characters up
to the closing quote, honouring backslash escapes. -/
def parseStrBody : Nat → List Char → List Char → Option (String × List Char)
  | 0, _, _ => none
  | _ + 1, acc, [] =>
    match acc with
    | _ => none
  | fuel + 1, acc, c :: rest =>
    if c = '"' then some (String.mk acc.reverse, rest)
    else if c = '\\' then
      match rest with
      | [] => none
      | e :: rest2 => parseStrBody fuel (escChar e :: acc) rest2
    else parseStrBody fuel (c :: acc) rest

mutual

/-- Parse one JSON value, returning it and the unconsumed input. -/
def parseVal : Nat → List Char → Option (Json × List Char)
  | 0, _ => none
  | fuel + 1, cs =>
    match skipWs cs with
    | '{' :: rest =>
      match skipWs rest with
      | '}' :: rest2 => some (.obj [], rest2)
      | rest2 =>
        match parseMembers fuel rest2 with
        | some (kvs, rest3) => some (.obj kvs, rest3)
        | none => none
    | '[' :: rest =>
      match skipWs rest with
      | ']' :: rest2 => some (.arr [], rest2)
      | rest2 =>
        match parseItems fuel rest2 with
        | some (xs, rest3) => some (.arr xs, rest3)
        | none => none
    | '"' :: rest =>
      match parseStrBody (fuel + 1) [] rest with
      | some (s, rest2) => some (.str s, rest2)
      | none => none
    | 't' :: 'r' :: 'u' :: 'e' :: rest => some (.bool true, rest)
    | 'f' :: 'a' :: 'l' :: 's' :: 'e' :: rest => some (.bool false, rest)
    | 'n' :: 'u' :: 'l' :: 'l' :: rest => some (.null, rest)
    | '-' :: c :: rest =>
      match digitVal c with
      | some d =>
        match parseNatChars d rest with
        | (n, rest2) => some (.num (-(Int.ofNat n)), rest2)
      | none => none
    | c :: rest =>
      match digitVal c with
      | some d =>
        match parseNatChars d rest with
        | (n, rest2) => some (.num (Int.ofNat n), rest2)
      | none => none
    | [] => none

/-- Parse the members of a JSON object after its opening brace (at least
one `"key": value` pair, comma-separated, up to the closing brace). -/
def parseMembers : Nat → List Char → Option (List (String × Json) × List Char)
  | 0, _ => none
  | fuel + 1, cs =>
    match skipWs cs with
    | '"' :: rest =>
      match parseStrBody (fuel + 1) [] rest with
      | some (k, rest2) =>
        match skipWs rest2 with
        | ':' :: rest3 =>
          match parseVal fuel rest3 with
          | some (v, rest4) =>
            match skipWs rest4 with
            | ',' :: rest5 =>
              match parseMembers fuel rest5 with
              | some (kvs, rest6) => some ((k, v) :: kvs, rest6)
              | none => none
            | '}' :: rest5 => some ([(k, v)], rest5)
            | _ => none
          | none => none
        | _ => none
      | none => none
    | _ => none

/-- Parse the items of a JSON array after its opening bracket (at least
one value, comma-separated, up to the closing bracket). -/
def parseItems : Nat → List Char → Option (List Json × List Char)
  | 0, _ => none
  | fuel + 1, cs =>
    match parseVal fuel cs with
    | some (v, rest) =>
      match skipWs rest with
      | ',' :: rest2 =>
        match parseItems fuel rest2 with
        | some (xs, rest3) => some (v :: xs, rest3)
        | none => none
      | ']' :: rest2 => some ([v], rest2)
      | _ => none
    | none => none

end

/-- Model of `json.loads`: parse a complete JSON document, requiring only trailing
whitespace after the value. -/
def jsonLoads (s : String) : Option Json :=
  match parseVal (2 * s.length + 2) s.toList with
  | some (j, rest) => if skipWs rest = [] then some j else none
  | none => none

/-! Section: ArgoExecutor (workflow_agent.py). -/

/-- One output parameter of a workflow node
(`node["outputs"]["parameters"][i]`); the `"value"` key may be absent. -/
structure WfParam where
  value : Option String := none
deriving DecidableEq, Repr

/-- The `outputs` dictionary of a workflow node; the `"parameters"` key
may be absent. -/
structure WfOutputs where
  parameters : Option (List WfParam) := none
deriving DecidableEq, Repr

/-- One entry of `status.nodes` in the workflow custom resource; the
`"templateName"` and `"outputs"` keys may be absent. -/
structure WfNode where
  templateName : Option String := none
  outputs : Option WfOutputs := none
deriving DecidableEq, Repr

/-- The `status` of the workflow custom resource: `finishedAt` is `none`
both when the key is absent (a `KeyError` the watch loop catches) and
when it is JSON `null` (the `is not None` test fails) — both continue the
watch; `phase` and `nodes` may likewise be absent. -/
structure WfStatus where
  finishedAt : Option String := none
  phase : Option String := none
  nodes : Option (List WfNode) := none
deriving DecidableEq, Repr

/-- One event from the watch stream, reduced to the watched object
(`event["object"]`): its `metadata.name` and its optional `status`. -/
structure WatchEvent where
  name : String := ""
  status : Option WfStatus := none
deriving DecidableEq, Repr

/-- The body of the watch loop of `ArgoExecutor._wait_for_crd_status` for
one event: `some (ok, event)` when the event is terminal (`finishedAt`
set and `phase` readable; `ok` is false exactly for `"Failed"`/`"Error"`),
`none` when the loop moves on (missing `status`, `finishedAt` unset or
absent, or a `KeyError` on `phase`, all swallowed by the
`except KeyError: pass`). -/
def watchStep (e : WatchEvent) : Option (Bool × WatchEvent) :=
  match e.status with
  | none => none
  | some st =>
    match st.finishedAt with
    | none => none
    | some _ =>
      match st.phase with
      | none => none
      | some p =>
        if p = "Failed" ∨ p = "Error" then some (false, e) else some (true, e)

/-- Model of `ArgoExecutor._wait_for_crd_status` over the (finite) watch stream:
return at the first terminal event, and raise
`Exception("Timeout waiting for CRD status")` (the `.error ()` case) when
the stream ends without one. -/
def waitForCrdStatus : List WatchEvent → Except Unit (Bool × WatchEvent)
  | [] => .error ()
  | e :: rest =>
    match watchStep e with
    | some r => .ok r
    | none => waitForCrdStatus rest

/-- Errors that `ArgoExecutor._extract_output` can raise: a `KeyError`
reading `status.nodes`, the uncaught `IndexError` from `parameters[0]` on
an empty list, the explicit `Exception("Output not found in workflow")`,
and a `json.loads` decode failure. -/
inductive ExtractErr
  | nodesKeyError
  | indexError
  | notFound
  | jsonError
deriving DecidableEq, Repr

/-- The per-node `try` body of the extraction scan: `some v` when the
node runs the `"agent-runner"` template and yields its first output
parameter's value; `ok none` when any dictionary key on that path is
missing (a caught `KeyError`) or the template differs; `IndexError` when
the node has an empty `parameters` list (not caught by
`except KeyError`). -/
def scanNode (n : WfNode) : Except ExtractErr (Option String) :=
  match n.templateName with
  | none => .ok none
  | some t =>
    if t = "agent-runner" then
      match n.outputs with
      | none => .ok none
      | some o =>
        match o.parameters with
        | none => .ok none
        | some [] => .error .indexError
        | some (p :: _) =>
          match p.value with
          | none => .ok none
          | some v => .ok (some v)
    else .ok none

/-- The extraction scan over `status.nodes`: first matching node wins
(the loop breaks), a raised `IndexError` propagates. -/
def scanNodes : List WfNode → Except ExtractErr (Option String)
  | [] => .ok none
  | n :: rest =>
    match scanNode n with
    | .error err => .error err
    | .ok (some v) => .ok (some v)
    | .ok none => scanNodes rest

/-- Model of `ArgoExecutor._extract_output`: read `status.nodes` from the terminal
watch event, scan for the `"agent-runner"` node's first output parameter
value, raise `"Output not found in workflow"` when the scan yields
nothing or an empty string (`if not output`), and parse the value with
`json.loads`. -/
def extractOutput (e : WatchEvent) : Except ExtractErr Json :=
  match e.status with
  | none => .error .nodesKeyError
  | some st =>
    match st.nodes with
    | none => .error .nodesKeyError
    | some ns =>
      match scanNodes ns with
      | .error err => .error err
      | .ok none => .error .notFound
      | .ok (some v) =>
        if v = "" then .error .notFound
        else
          match jsonLoads v with
          | none => .error .jsonError
          | some j => .ok j

/-- Spec dictionary consumed by `ArgoExecutor.run` when building the
`WorkflowContext`; `program`, `input_message` and `agent_runner_image`
are read unguarded (a missing key raises `KeyError`), the remaining keys
are guarded with defaults. -/
structure ArgoSpec where
  program : Option String := none
  image_pull_secrets : Option (List String) := none
  input_message : Option String := none
  agent_runner_image : Option String := none
  additional_env_vars : Option (List (String × String)) := none
  additional_env_vars_from_secret : Option (List (String × String × String)) := none
deriving DecidableEq, Repr

/-- A value stored in an Argo execution context's `status` dictionary:
the generated workflow name string or the captured terminal watch event. -/
inductive ArgoStatusVal
  | strVal (s : String)
  | evVal (e : WatchEvent)
deriving DecidableEq, Repr

/-- An execution context handed to `ArgoExecutor`. -/
abbrev ArgoContext := ExecutionContext ArgoSpec ArgoStatusVal

/-- Errors raised by the Argo executor paths: a `KeyError` on a required
spec or status key, the propagated failure of the cluster `create` call,
`ArgoWorkflowException` carrying the terminal watch event, the timeout
raised when the watch ends, a subscript of a `None` status, an ill-typed
`status["event"]` entry, and an extraction error. -/
inductive ArgoErr
  | keyError (k : String)
  | createError
  | workflowFailed (e : WatchEvent)
  | timeoutError
  | statusNone
  | statusTypeError
  | extractError (err : ExtractErr)
deriving DecidableEq, Repr

/-- Model of `ArgoExecutor.run`: build the `WorkflowContext` (raising `KeyError`
on a missing required spec key), create the workflow custom resource
(`createResult` is the cluster's answer: the generated resource name, or
a creation failure that is re-raised), record
`status = {"workflow-name": name}`, and — unless `async_mode` — run
`_wait_for_crd_status` on the watch stream for that name, raising
`ArgoWorkflowException` on a failed terminal event and storing the
terminal event under `status["event"]` on success. The lifecycle
`notify_observers` calls have no effect on the context or the result and
are not modelled here. -/
def argoRun (streamOf : String → List WatchEvent) (createResult : Except Unit String)
    (ctx : ArgoContext) (asyncMode : Bool) : Except ArgoErr ArgoContext :=
  match ctx.spec.program with
  | none => .error (.keyError "program")
  | some _ =>
    match ctx.spec.input_message with
    | none => .error (.keyError "input_message")
    | some _ =>
      match ctx.spec.agent_runner_image with
      | none => .error (.keyError "agent_runner_image")
      | some _ =>
        match createResult with
        | .error _ => .error .createError
        | .ok generatedName =>
          let status0 : List (String × ArgoStatusVal) :=
            [("workflow-name", .strVal generatedName)]
          if asyncMode then .ok { ctx with status := some status0 }
          else
            match waitForCrdStatus (streamOf generatedName) with
            | .error () => .error .timeoutError
            | .ok (false, e) => .error (.workflowFailed e)
            | .ok (true, e) =>
              .ok { ctx with status := some (status0 ++ [("event", .evVal e)]) }

/-- Model of `ArgoExecutor.get_results`: if `status["event"]` is not yet populated
(the asynchronous path), look up `status["workflow-name"]` and run
`_wait_for_crd_status` on that resource's watch stream, raising
`ArgoWorkflowException` on a failed terminal event; then extract the
output from the terminal event with `_extract_output`. -/
def argoGetResults (streamOf : String → List WatchEvent) (ctx : ArgoContext) :
    Except ArgoErr Json :=
  match ctx.status with
  | none => .error .statusNone
  | some st =>
    match lookupKey "event" st with
    | some (.evVal e) => (extractOutput e).mapError .extractError
    | some (.strVal _) => .error .statusTypeError
    | none =>
      match lookupKey "workflow-name" st with
      | some (.strVal generatedName) =>
        match waitForCrdStatus (streamOf generatedName) with
        | .error () => .error .timeoutError
        | .ok (false, e) => .error (.workflowFailed e)
        | .ok (true, e) => (extractOutput e).mapError .extractError
      | some (.evVal _) => .error .statusTypeError
      | none => .error (.keyError "workflow-name")

/-! Section: theorems. Helper lemmas first, then one theorem per claim. -/

/-- Helper: an event whose `agentName` is absent or outside `parents` is
skipped by the predecessor scan. -/
theorem scanPredecessor_skip (parents : List String) (e : ObsEvent)
    (rest : List ObsEvent)
    (h : ∀ q, e.details.agentName = some q → q ∉ parents) :
    scanPredecessor parents (e :: rest) = scanPredecessor parents rest := by
  cases hA : e.details.agentName with
  | none => simp [scanPredecessor, hA]
  | some q =>
    have hq := h q hA
    simp [scanPredecessor, hA, hq]

/-- Helper: a scan over events none of which qualifies returns the
sentinel. -/
theorem scanPredecessor_no_match (parents : List String) (l : List ObsEvent)
    (h : ∀ e ∈ l, ∀ q, e.details.agentName = some q → q ∉ parents) :
    scanPredecessor parents l = "__start__" := by
  induction l with
  | nil => rfl
  | cons e rest ih =>
    rw [scanPredecessor_skip parents e rest (h e (by simp))]
    exact ih (fun e2 he2 => h e2 (by simp [he2]))

/-- Helper: a prefix of non-qualifying events does not affect the scan. -/
theorem scanPredecessor_append_skip (parents : List String)
    (l1 l2 : List ObsEvent)
    (h : ∀ e ∈ l1, ∀ q, e.details.agentName = some q → q ∉ parents) :
    scanPredecessor parents (l1 ++ l2) = scanPredecessor parents l2 := by
  induction l1 with
  | nil => rfl
  | cons e rest ih =>
    rw [List.cons_append, scanPredecessor_skip parents e _ (h e (by simp))]
    exact ih (fun e2 he2 => h e2 (by simp [he2]))

/-- Helper: the scan stops at the first qualifying event. -/
theorem scanPredecessor_hit (parents : List String) (e : ObsEvent)
    (rest : List ObsEvent) (p : String)
    (hA : e.details.agentName = some p) (hp : p ∈ parents) :
    scanPredecessor parents (e :: rest) = p := by
  simp [scanPredecessor, hA, hp]

/-- C1: for every published event, the computed `agent_predecessor` is the
sentinel `"__start__"` when no graph is configured or `agent_name` is
absent; otherwise it is the `agent_name` of the most recent earlier event
in the log whose `agent_name` is the source of a graph edge into this
event's `agent_name`, and `"__start__"` when no such earlier event
exists. In particular, for the graph A→B, B→C and events for agents A,
then B, then C, the recorded predecessors are `"__start__"`, `"A"`,
`"B"`. -/
theorem predecessor_inference_correct :
    ∀ (g : Option ObsGraph) (events : List ObsEvent) (an : Option String),
    (g = none → computePredecessor g events an = "__start__") ∧
    (an = none → computePredecessor g events an = "__start__") ∧
    (∀ (gr : ObsGraph) (p : String), g = some gr →
      (p ∈ nodeParents g an ↔ ∃ ed ∈ gr.edges, ed.source = p ∧ some ed.target = an)) ∧
    (∀ (pre : List ObsEvent) (e : ObsEvent) (post : List ObsEvent) (p : String),
      events = pre ++ e :: post →
      e.details.agentName = some p →
      p ∈ nodeParents g an →
      (∀ e2 ∈ post, ∀ q, e2.details.agentName = some q → q ∉ nodeParents g an) →
      computePredecessor g events an = p) ∧
    ((∀ e2 ∈ events, ∀ q, e2.details.agentName = some q → q ∉ nodeParents g an) →
      computePredecessor g events an = "__start__") ∧
    ((observerUpdate (observerUpdate (observerUpdate
        ⟨some ⟨[⟨"A", "B"⟩, ⟨"B", "C"⟩]⟩, []⟩
        "Nodes" (some { agentName := some "A" }))
        "Nodes" (some { agentName := some "B" }))
        "Nodes" (some { agentName := some "C" })).events.map
          (fun e => e.details.agentPredecessor) = ["__start__", "A", "B"]) := by
  intro g events an
  refine ⟨?_, ?_, ?_, ?_, ?_, ?_⟩
  · intro hg
    subst hg
    exact scanPredecessor_no_match _ _ (by simp [nodeParents])
  · intro ha
    subst ha
    have hpar : nodeParents g none = [] := by
      cases g with
      | none => rfl
      | some gr => simp [nodeParents]
    unfold computePredecessor
    rw [hpar]
    exact scanPredecessor_no_match _ _ (by simp)
  · intro gr p hg
    subst hg
    simp only [nodeParents, List.mem_map, List.mem_filter]
    constructor
    · rintro ⟨ed, ⟨hed, ht⟩, hs⟩
      exact ⟨ed, hed, hs, by simpa using ht⟩
    · rintro ⟨ed, hed, hs, ht⟩
      exact ⟨ed, ⟨hed, by simpa using ht⟩, hs⟩
  · intro pre e post p hev hA hp hpost
    subst hev
    unfold computePredecessor
    rw [List.reverse_append, List.reverse_cons, List.append_assoc,
      List.singleton_append,
      scanPredecessor_append_skip _ _ _
        (fun e2 he2 => hpost e2 (List.mem_reverse.mp he2))]
    exact scanPredecessor_hit _ _ _ _ hA hp
  · intro h
    exact scanPredecessor_no_match _ _
      (fun e2 he2 => h e2 (List.mem_reverse.mp he2))
  · rfl

/-- Witness for C1: the A→B, B→C example instantiated through the
theorem, showing the predecessor of the C event is `"B"`. -/
theorem predecessor_inference_correct_witness :
    computePredecessor (some ⟨[⟨"A", "B"⟩, ⟨"B", "C"⟩]⟩)
      [⟨"Nodes", ⟨some "A", "__start__", none, none, none, none⟩⟩,
       ⟨"Nodes", ⟨some "B", "A", none, none, none, none⟩⟩]
      (some "C") = "B" := by
  exact (predecessor_inference_correct (some ⟨[⟨"A", "B"⟩, ⟨"B", "C"⟩]⟩)
      [⟨"Nodes", ⟨some "A", "__start__", none, none, none, none⟩⟩,
       ⟨"Nodes", ⟨some "B", "A", none, none, none, none⟩⟩]
      (some "C")).2.2.2.1
      [⟨"Nodes", ⟨some "A", "__start__", none, none, none, none⟩⟩]
      ⟨"Nodes", ⟨some "B", "A", none, none, none, none⟩⟩ [] "B"
      rfl rfl (by decide) (by simp)

/-- C2 counterexample: with two subscribed observers where the first
raises during notification, `notify_observers` propagates the exception
and the second observer does not receive the event (its received count
stays 0), refuting the claim that delivery continues past a per-observer
error. -/
theorem observer_isolation_counterexample :
    (notifyObservers [⟨true, 0⟩, ⟨false, 0⟩]).2 = true ∧
    (notifyObservers [⟨true, 0⟩, ⟨false, 0⟩]).1 = [⟨true, 0⟩, ⟨false, 0⟩] ∧
    ((notifyObservers [⟨true, 0⟩, ⟨false, 0⟩]).1.map SimpleObserver.received
      = [0, 0]) := by
  exact ⟨rfl, rfl, rfl⟩

/-- C2 amended: the notification loop of `Observable.notify_observers`
has no per-observer error handling, so when an observer raises during
notification, observers before it have received the event, the exception
propagates, and the raising observer and every observer subscribed after
it are left with the event undelivered. -/
theorem notify_stops_at_raising_observer :
    ∀ (pre : List SimpleObserver) (o : SimpleObserver)
      (post : List SimpleObserver),
    o.raises = true → (∀ x ∈ pre, x.raises = false) →
    notifyObservers (pre ++ o :: post) =
      (pre.map deliverEvent ++ o :: post, true) := by
  intro pre o post ho hpre
  induction pre with
  | nil => simp [notifyObservers, ho]
  | cons x rest ih =>
    have hx : x.raises = false := hpre x (by simp)
    rw [List.cons_append]
    rw [show notifyObservers (x :: (rest ++ o :: post)) =
        (deliverEvent x :: (notifyObservers (rest ++ o :: post)).1,
         (notifyObservers (rest ++ o :: post)).2) by simp [notifyObservers, hx]]
    rw [ih (fun y hy => hpre y (by simp [hy]))]
    simp

/-- Witness for C2 amended: an observer list delivering to the first
observer, stopping at the raising second observer, leaving the third
without the event. -/
theorem notify_stops_at_raising_observer_witness :
    notifyObservers [⟨false, 0⟩, ⟨true, 0⟩, ⟨false, 0⟩] =
      ([⟨false, 1⟩, ⟨true, 0⟩, ⟨false, 0⟩], true) := by
  have h := notify_stops_at_raising_observer
      [⟨false, 0⟩] ⟨true, 0⟩ [⟨false, 0⟩] rfl (by decide)
  simpa [deliverEvent] using h

/-- Helper: watch events on which the loop body makes no decision do not
affect the wait result. -/
theorem waitForCrdStatus_append_skip (pre l : List WatchEvent)
    (h : ∀ x ∈ pre, watchStep x = none) :
    waitForCrdStatus (pre ++ l) = waitForCrdStatus l := by
  induction pre with
  | nil => rfl
  | cons x rest ih =>
    rw [List.cons_append]
    rw [show waitForCrdStatus (x :: (rest ++ l)) = waitForCrdStatus (rest ++ l) by
      simp [waitForCrdStatus, h x (by simp)]]
    exact ih (fun y hy => h y (by simp [hy]))

/-- C3: in `_wait_for_crd_status`, a watch event with `finishedAt` set
and phase `"Succeeded"` yields success carrying that event; a watch event
with `finishedAt` set and phase `"Failed"` or `"Error"` yields the
terminal-failure result carrying that event; and a watch stream ending
with no event having `finishedAt` set raises the timeout error, which is
distinct from the terminal-failure result. -/
theorem wait_terminal_phase_classification :
    (∀ (pre : List WatchEvent) (e : WatchEvent) (post : List WatchEvent)
       (st : WfStatus) (t : String),
      (∀ x ∈ pre, watchStep x = none) →
      e.status = some st → st.finishedAt = some t →
      st.phase = some "Succeeded" →
      waitForCrdStatus (pre ++ e :: post) = .ok (true, e)) ∧
    (∀ (pre : List WatchEvent) (e : WatchEvent) (post : List WatchEvent)
       (st : WfStatus) (t p : String),
      (∀ x ∈ pre, watchStep x = none) →
      e.status = some st → st.finishedAt = some t →
      st.phase = some p → (p = "Failed" ∨ p = "Error") →
      waitForCrdStatus (pre ++ e :: post) = .ok (false, e)) ∧
    (∀ (stream : List WatchEvent),
      (∀ x ∈ stream, ∀ s2, x.status = some s2 → s2.finishedAt = none) →
      waitForCrdStatus stream = .error ()) := by
  refine ⟨?_, ?_, ?_⟩
  · intro pre e post st t hpre hst hfin hph
    rw [waitForCrdStatus_append_skip pre _ hpre]
    have hstep : watchStep e = some (true, e) := by
      simp only [watchStep, hst, hfin, hph]
      rw [if_neg (by decide)]
    simp [waitForCrdStatus, hstep]
  · intro pre e post st t p hpre hst hfin hph hp
    rw [waitForCrdStatus_append_skip pre _ hpre]
    have hstep : watchStep e = some (false, e) := by
      simp only [watchStep, hst, hfin, hph]
      rw [if_pos hp]
    simp [waitForCrdStatus, hstep]
  · intro stream h
    induction stream with
    | nil => rfl
    | cons x rest ih =>
      have hx : watchStep x = none := by
        cases hs : x.status with
        | none => simp [watchStep, hs]
        | some s2 => simp [watchStep, hs, h x (by simp) s2 hs]
      rw [show waitForCrdStatus (x :: rest) = waitForCrdStatus rest by
        simp [waitForCrdStatus, hx]]
      exact ih (fun y hy s2 hs2 => h y (by simp [hy]) s2 hs2)

/-- Witness for C3: a finished `"Succeeded"` event after an unfinished
one yields success; a finished `"Failed"` event yields the failure result;
a stream of only unfinished events raises the timeout. -/
theorem wait_terminal_phase_classification_witness :
    waitForCrdStatus
      [⟨"w", some ⟨none, some "Running", none⟩⟩,
       ⟨"w", some ⟨some "t1", some "Succeeded", none⟩⟩]
      = .ok (true, ⟨"w", some ⟨some "t1", some "Succeeded", none⟩⟩) ∧
    waitForCrdStatus [⟨"w", some ⟨some "t1", some "Failed", none⟩⟩]
      = .ok (false, ⟨"w", some ⟨some "t1", some "Failed", none⟩⟩) ∧
    waitForCrdStatus [⟨"w", some ⟨none, some "Running", none⟩⟩]
      = .error () := by
  refine ⟨?_, ?_, ?_⟩
  · exact wait_terminal_phase_classification.1
      [⟨"w", some ⟨none, some "Running", none⟩⟩]
      ⟨"w", some ⟨some "t1", some "Succeeded", none⟩⟩ [] _ "t1"
      (by decide) rfl rfl rfl
  · exact wait_terminal_phase_classification.2.1
      [] ⟨"w", some ⟨some "t1", some "Failed", none⟩⟩ [] _ "t1" "Failed"
      (by decide) rfl rfl rfl (Or.inl rfl)
  · exact wait_terminal_phase_classification.2.2
      [⟨"w", some ⟨none, some "Running", none⟩⟩] (by decide)

/-- C10: for a watch event with `finishedAt` set and a readable phase,
`_wait_for_crd_status` yields success if and only if the phase is neither
`"Failed"` nor `"Error"`: success is not restricted to `"Succeeded"`, and
the successful result carries that event as the terminal event. -/
theorem finished_phase_success_iff :
    ∀ (e : WatchEvent) (rest : List WatchEvent) (st : WfStatus)
      (t p : String),
    e.status = some st → st.finishedAt = some t → st.phase = some p →
    (waitForCrdStatus (e :: rest) = .ok (true, e) ↔
      ¬(p = "Failed" ∨ p = "Error")) := by
  intro e rest st t p hst hfin hph
  by_cases hp : p = "Failed" ∨ p = "Error"
  · have hstep : watchStep e = some (false, e) := by
      simp only [watchStep, hst, hfin, hph]
      rw [if_pos hp]
    simp [waitForCrdStatus, hstep, hp]
  · have hstep : watchStep e = some (true, e) := by
      simp only [watchStep, hst, hfin, hph]
      rw [if_neg hp]
    simp [waitForCrdStatus, hstep, hp]

/-- Witness for C10: an event finished with the non-terminal-sounding
phase `"Running"` is classified as success and stored as the terminal
event. -/
theorem finished_phase_success_iff_witness :
    waitForCrdStatus [⟨"w", some ⟨some "t1", some "Running", none⟩⟩]
      = .ok (true, ⟨"w", some ⟨some "t1", some "Running", none⟩⟩) := by
  exact (finished_phase_success_iff
      ⟨"w", some ⟨some "t1", some "Running", none⟩⟩ [] _ "t1" "Running"
      rfl rfl rfl).mpr (by decide)

/-- C4 counterexample: after `LocalExecutor.run` with `async_mode=True`
returns on a concrete context whose `status` was never populated, the
context's `status` is still `None` — it contains no identifying state at
all, so the claim that `context.status` supports a later `get_results`
fails for the Local backend. -/
theorem async_run_status_counterexample :
    (localRun ({ futures := [], invocations := 0 } : LocalExecutor Nat)
        { metadata := { agent_name := "A", name := "task-1" },
          spec := { node_functions := some [42] },
          status := none } true).map (fun r => r.2.status) = .ok none := by
  rfl

/-- C4 amended: after `run` with `async_mode` true returns, the Remote
backend records the generated workflow name in `context.status`, which a
later `get_results` uses to locate the watch stream and perform the wait;
the Local backend leaves `context.status` untouched and instead registers
the in-flight future under `context.metadata.name` inside the executor,
which its `get_results` uses to locate and wait for the task. -/
theorem async_run_identifying_state :
    (∀ (streamOf : String → List WatchEvent) (generatedName : String)
       (ctx : ArgoContext) (pg im ai : String),
      ctx.spec.program = some pg → ctx.spec.input_message = some im →
      ctx.spec.agent_runner_image = some ai →
      ∃ ctx2, argoRun streamOf (.ok generatedName) ctx true = .ok ctx2 ∧
        ctx2.status = some [("workflow-name", .strVal generatedName)] ∧
        (waitForCrdStatus (streamOf generatedName) = .error () →
          argoGetResults streamOf ctx2 = .error .timeoutError) ∧
        (∀ e, waitForCrdStatus (streamOf generatedName) = .ok (false, e) →
          argoGetResults streamOf ctx2 = .error (.workflowFailed e)) ∧
        (∀ e, waitForCrdStatus (streamOf generatedName) = .ok (true, e) →
          argoGetResults streamOf ctx2 = (extractOutput e).mapError .extractError)) ∧
    (∀ (α : Type) (ex : LocalExecutor α) (ctx : LocalContext α) (f : α)
       (rest : List α),
      ctx.spec.node_functions = some (f :: rest) →
      ∃ ex2, localRun ex ctx true = .ok (ex2, ctx) ∧
        localGetResults ex2 ctx = .ok (ex2, f)) := by
  constructor
  · intro streamOf generatedName ctx pg im ai hpg him hai
    refine ⟨{ ctx with status := some [("workflow-name", .strVal generatedName)] },
      ?_, rfl, ?_, ?_, ?_⟩
    · simp [argoRun, hpg, him, hai]
    · intro hw
      simp [argoGetResults, lookupKey, hw]
    · intro e hw
      simp [argoGetResults, lookupKey, hw]
    · intro e hw
      simp [argoGetResults, lookupKey, hw]
  · intro α ex ctx f rest hfn
    refine ⟨{ futures := (ctx.metadata.name, f) :: ex.futures,
              invocations := ex.invocations + 1 }, ?_, ?_⟩
    · simp [localRun, hfn]
    · simp [localGetResults, lookupKey]

/-- Witness for C4 amended: a concrete remote context whose async run
records the workflow name and whose `get_results` then waits and extracts,
and a concrete local context resolved through the future registry. -/
theorem async_run_identifying_state_witness :
    (∃ ctx2, argoRun
        (fun _ => [⟨"wf-1", some ⟨some "t1", some "Succeeded",
          some [⟨some "agent-runner",
            some ⟨some [⟨some "\x7b\"x\":1\x7d"⟩]⟩⟩]⟩⟩])
        (.ok "wf-1")
        { metadata := { agent_name := "A", name := "task-1" },
          spec := { program := some "prog", input_message := some "in",
                    agent_runner_image := some "img" },
          status := none } true = .ok ctx2 ∧
      ctx2.status = some [("workflow-name", .strVal "wf-1")] ∧
      argoGetResults
        (fun _ => [⟨"wf-1", some ⟨some "t1", some "Succeeded",
          some [⟨some "agent-runner",
            some ⟨some [⟨some "\x7b\"x\":1\x7d"⟩]⟩⟩]⟩⟩]) ctx2
        = .ok (.obj [("x", .num 1)])) ∧
    (∃ ex2, localRun ({ futures := [], invocations := 0 } : LocalExecutor Nat)
        { metadata := { agent_name := "A", name := "task-1" },
          spec := { node_functions := some [42] },
          status := none } true = .ok (ex2,
            { metadata := { agent_name := "A", name := "task-1" },
              spec := { node_functions := some [42] },
              status := none }) ∧
      localGetResults ex2
        { metadata := { agent_name := "A", name := "task-1" },
          spec := { node_functions := some [42] },
          status := none } = .ok (ex2, 42)) := by
  constructor
  · obtain ⟨ctx2, h1, h2, _, _, h5⟩ := async_run_identifying_state.1
      (fun _ => [⟨"wf-1", some ⟨some "t1", some "Succeeded",
        some [⟨some "agent-runner",
          some ⟨some [⟨some "\x7b\"x\":1\x7d"⟩]⟩⟩]⟩⟩])
      "wf-1"
      { metadata := { agent_name := "A", name := "task-1" },
        spec := { program := some "prog", input_message := some "in",
                  agent_runner_image := some "img" },
        status := none } "prog" "in" "img" rfl rfl rfl
    refine ⟨ctx2, h1, h2, ?_⟩
    rw [h5 _ rfl]
    rfl
  · obtain ⟨ex2, h1, h2⟩ := async_run_identifying_state.2 Nat
      { futures := [], invocations := 0 }
      { metadata := { agent_name := "A", name := "task-1" },
        spec := { node_functions := some [42] },
        status := none } 42 [] rfl
    exact ⟨ex2, h1, h2⟩

/-- Helper: nodes the per-node scan passes over do not affect the outcome
of the extraction scan. -/
theorem scanNodes_append_skip (pre l : List WfNode)
    (h : ∀ m ∈ pre, scanNode m = .ok none) :
    scanNodes (pre ++ l) = scanNodes l := by
  induction pre with
  | nil => rfl
  | cons n rest ih =>
    rw [List.cons_append]
    rw [show scanNodes (n :: (rest ++ l)) = scanNodes (rest ++ l) by
      simp [scanNodes, h n (by simp)]]
    exact ih (fun m hm => h m (by simp [hm]))

/-- Helper: when no node yields an output value, the extraction scan ends
with no output or with the uncaught `IndexError`. -/
theorem scanNodes_no_hit (ns : List WfNode)
    (h : ∀ m ∈ ns, ∀ v, scanNode m ≠ .ok (some v)) :
    scanNodes ns = .ok none ∨ scanNodes ns = .error .indexError := by
  induction ns with
  | nil => exact Or.inl rfl
  | cons n rest ih =>
    cases hs : scanNode n with
    | error err =>
      have herr : err = .indexError := by
        unfold scanNode at hs
        repeat' split at hs
        all_goals try cases hs
        all_goals rfl
      subst herr
      exact Or.inr (by simp [scanNodes, hs])
    | ok found =>
      cases found with
      | none =>
        rw [show scanNodes (n :: rest) = scanNodes rest by simp [scanNodes, hs]]
        exact ih (fun m hm => h m (by simp [hm]))
      | some v => exact absurd hs (h n (by simp) v)

/-- C5: for a terminal remote workflow event, if `status.nodes` contains
(first) a node with `templateName = "agent-runner"` whose first output
parameter carries a value that is valid JSON text, `_extract_output`
returns that value parsed as structured data; if no node yields such an
output value, extraction raises an error (the explicit
"Output not found in workflow", or the uncaught `IndexError` for an
`"agent-runner"` node with an empty parameter list). -/
theorem extract_output_correct :
    (∀ (ev : WatchEvent) (st : WfStatus) (pre : List WfNode) (n : WfNode)
       (post : List WfNode) (v : String) (j : Json),
      ev.status = some st → st.nodes = some (pre ++ n :: post) →
      (∀ m ∈ pre, scanNode m = .ok none) →
      scanNode n = .ok (some v) → jsonLoads v = some j →
      extractOutput ev = .ok j) ∧
    (∀ (ev : WatchEvent) (st : WfStatus) (ns : List WfNode),
      ev.status = some st → st.nodes = some ns →
      (∀ m ∈ ns, ∀ v, scanNode m ≠ .ok (some v)) →
      extractOutput ev = .error .notFound ∨
        extractOutput ev = .error .indexError) := by
  constructor
  · intro ev st pre n post v j hst hns hpre hn hjson
    have hv : v ≠ "" := by
      intro hv0
      rw [hv0] at hjson
      rw [show jsonLoads "" = (none : Option Json) from rfl] at hjson
      cases hjson
    have hscan : scanNodes (pre ++ n :: post) = .ok (some v) := by
      rw [scanNodes_append_skip pre _ hpre]
      simp [scanNodes, hn]
    simp [extractOutput, hst, hns, hscan, hv, hjson]
  · intro ev st ns hst hns h
    cases scanNodes_no_hit ns h with
    | inl hsc => exact Or.inl (by simp [extractOutput, hst, hns, hsc])
    | inr hsc => exact Or.inr (by simp [extractOutput, hst, hns, hsc])

/-- Witness for C5: a concrete terminal event with one `"agent-runner"`
node whose output parameter is the JSON text of an object extracts the
parsed object, and one with no such node raises the not-found error. -/
theorem extract_output_correct_witness :
    extractOutput ⟨"wf-1", some ⟨some "t1", some "Succeeded",
        some [⟨some "other", none⟩,
          ⟨some "agent-runner", some ⟨some [⟨some "\x7b\"x\":1\x7d"⟩]⟩⟩]⟩⟩
      = .ok (.obj [("x", .num 1)]) ∧
    (extractOutput ⟨"wf-1", some ⟨some "t1", some "Succeeded",
        some [⟨some "other", none⟩]⟩⟩ = .error .notFound ∨
      extractOutput ⟨"wf-1", some ⟨some "t1", some "Succeeded",
        some [⟨some "other", none⟩]⟩⟩ = .error .indexError) := by
  constructor
  · exact extract_output_correct.1
      ⟨"wf-1", some ⟨some "t1", some "Succeeded",
        some [⟨some "other", none⟩,
          ⟨some "agent-runner", some ⟨some [⟨some "\x7b\"x\":1\x7d"⟩]⟩⟩]⟩⟩
      ⟨some "t1", some "Succeeded",
        some [⟨some "other", none⟩,
          ⟨some "agent-runner", some ⟨some [⟨some "\x7b\"x\":1\x7d"⟩]⟩⟩]⟩
      [⟨some "other", none⟩]
      ⟨some "agent-runner", some ⟨some [⟨some "\x7b\"x\":1\x7d"⟩]⟩⟩
      [] "\x7b\"x\":1\x7d" (.obj [("x", .num 1)])
      rfl rfl
      (by
        intro m hm
        rw [List.mem_singleton] at hm
        subst hm
        rfl)
      rfl rfl
  · exact extract_output_correct.2
      ⟨"wf-1", some ⟨some "t1", some "Succeeded", some [⟨some "other", none⟩]⟩⟩
      ⟨some "t1", some "Succeeded", some [⟨some "other", none⟩]⟩
      [⟨some "other", none⟩] rfl rfl
      (by
        intro m hm v hcon
        rw [List.mem_singleton] at hm
        subst hm
        exact Option.noConfusion (Except.ok.inj hcon))

/-- C6: on a context whose spec holds a single zero-argument node
callable and whose name has no registered in-flight future, a synchronous
`LocalExecutor.run` followed by `get_results` on the same context returns
exactly the callable's return value, round-tripped through
`context.status["output"]`. -/
theorem local_round_trip :
    ∀ (α : Type) (ex : LocalExecutor α) (ctx : LocalContext α) (f : α),
    ctx.spec.node_functions = some [f] →
    lookupKey ctx.metadata.name ex.futures = none →
    ∃ ex2 ctx2, localRun ex ctx false = .ok (ex2, ctx2) ∧
      ctx2.status = some [("output", f)] ∧
      localGetResults ex2 ctx2 = .ok (ex2, f) := by
  intro α ex ctx f hfn hfut
  refine ⟨{ ex with invocations := ex.invocations + 1 },
    { ctx with status := some [("output", f)] }, ?_, rfl, ?_⟩
  · simp [localRun, hfn]
  · simp [localGetResults, lookupKey, hfut]

/-- Witness for C6: a concrete synchronous round-trip returning the
callable's value 42. -/
theorem local_round_trip_witness :
    ∃ ex2 ctx2,
      localRun ({ futures := [], invocations := 0 } : LocalExecutor Nat)
        { metadata := { agent_name := "A", name := "task-1" },
          spec := { node_functions := some [42] },
          status := none } false = .ok (ex2, ctx2) ∧
      ctx2.status = some [("output", 42)] ∧
      localGetResults ex2 ctx2 = .ok (ex2, 42) := by
  obtain ⟨ex2, ctx2, h1, h2, h3⟩ := local_round_trip Nat
    { futures := [], invocations := 0 }
    { metadata := { agent_name := "A", name := "task-1" },
      spec := { node_functions := some [42] },
      status := none } 42 rfl rfl
  exact ⟨ex2, ctx2, h1, h2, h3⟩

/-- C7: after `run` with `async_mode` true, two successive `get_results`
calls on the same context return the same value — the callable's result,
resolved once at submission — and the executor's invocation count stays
at one invocation in total, so the second call does not re-invoke the
callable. -/
theorem local_async_idempotent :
    ∀ (α : Type) (ex : LocalExecutor α) (ctx : LocalContext α) (f : α)
      (rest : List α),
    ctx.spec.node_functions = some (f :: rest) →
    ∃ ex1 ex2 v1 ex3 v2,
      localRun ex ctx true = .ok (ex1, ctx) ∧
      localGetResults ex1 ctx = .ok (ex2, v1) ∧
      localGetResults ex2 ctx = .ok (ex3, v2) ∧
      v1 = f ∧ v2 = v1 ∧
      ex3.invocations = ex.invocations + 1 := by
  intro α ex ctx f rest hfn
  refine ⟨{ futures := (ctx.metadata.name, f) :: ex.futures,
            invocations := ex.invocations + 1 },
    { futures := (ctx.metadata.name, f) :: ex.futures,
      invocations := ex.invocations + 1 },
    f,
    { futures := (ctx.metadata.name, f) :: ex.futures,
      invocations := ex.invocations + 1 },
    f, ?_, ?_, ?_, rfl, rfl, rfl⟩
  · simp [localRun, hfn]
  · simp [localGetResults, lookupKey]
  · simp [localGetResults, lookupKey]

/-- Witness for C7: a concrete async run followed by two `get_results`
calls, both returning 42 with a single recorded invocation. -/
theorem local_async_idempotent_witness :
    ∃ ex1 ex2 v1 ex3 v2,
      localRun ({ futures := [], invocations := 0 } : LocalExecutor Nat)
        { metadata := { agent_name := "A", name := "task-1" },
          spec := { node_functions := some [42] },
          status := none } true = .ok (ex1,
            { metadata := { agent_name := "A", name := "task-1" },
              spec := { node_functions := some [42] },
              status := none }) ∧
      localGetResults ex1
        { metadata := { agent_name := "A", name := "task-1" },
          spec := { node_functions := some [42] },
          status := none } = .ok (ex2, v1) ∧
      localGetResults ex2
        { metadata := { agent_name := "A", name := "task-1" },
          spec := { node_functions := some [42] },
          status := none } = .ok (ex3, v2) ∧
      v1 = 42 ∧ v2 = v1 ∧ ex3.invocations = 0 + 1 := by
  exact local_async_idempotent Nat { futures := [], invocations := 0 }
    { metadata := { agent_name := "A", name := "task-1" },
      spec := { node_functions := some [42] },
      status := none } 42 [] rfl

/-- C8: calling `LocalExecutor.get_results` on a context that was never
submitted — no future registered under its `metadata.name` and `status`
never populated — raises (subscripting the unset `None` status) instead
of returning a value. -/
theorem get_results_unsubmitted_raises :
    ∀ (α : Type) (ex : LocalExecutor α) (ctx : LocalContext α),
    lookupKey ctx.metadata.name ex.futures = none →
    ctx.status = none →
    localGetResults ex ctx = .error .statusNoneError := by
  intro α ex ctx hfut hst
  simp [localGetResults, hfut, hst]

/-- Witness for C8: a fresh executor and a never-submitted context. -/
theorem get_results_unsubmitted_raises_witness :
    localGetResults ({ futures := [], invocations := 0 } : LocalExecutor Nat)
      { metadata := { agent_name := "A", name := "task-1" },
        spec := { node_functions := some [42] },
        status := none } = .error .statusNoneError := by
  exact get_results_unsubmitted_raises Nat { futures := [], invocations := 0 }
    { metadata := { agent_name := "A", name := "task-1" },
      spec := { node_functions := some [42] },
      status := none } rfl rfl

/-- C9: the `additional_env_vars` mapping built by the remote node path
contains exactly the environment entries whose name starts with `"OVAL_"`
or belongs to the `common_envs` allow-list (with `WORKFLOW_NAME` bound to
the workflow correlation id); any variable outside this set never flows
into the remote execution's environment overlay. -/
theorem additional_env_vars_allowlist :
    ∀ (osEnv : List (String × String)) (workflowName n v : String),
    (n, v) ∈ buildAdditionalEnvVars osEnv workflowName ↔
      ((strStartsWith n "OVAL_" = true ∨ n ∈ common_envs) ∧
       ((n = "WORKFLOW_NAME" ∧ v = workflowName) ∨
        (n ≠ "WORKFLOW_NAME" ∧ (n, v) ∈ osEnv))) := by
  intro osEnv workflowName n v
  simp only [buildAdditionalEnvVars, setEnv, List.mem_filter, List.mem_cons,
    Prod.mk.injEq, decide_eq_true_eq, Bool.or_eq_true]
  tauto

/-- Witness for C9: a variable outside the allow-list is excluded from
the overlay while an `OVAL_`-prefixed one is kept. -/
theorem additional_env_vars_allowlist_witness :
    ("SECRET_TOKEN", "s") ∉
      buildAdditionalEnvVars [("SECRET_TOKEN", "s"), ("OVAL_A", "1")] "wf" ∧
    ("OVAL_A", "1") ∈
      buildAdditionalEnvVars [("SECRET_TOKEN", "s"), ("OVAL_A", "1")] "wf" := by
  constructor
  · intro hmem
    have h := (additional_env_vars_allowlist
      [("SECRET_TOKEN", "s"), ("OVAL_A", "1")] "wf" "SECRET_TOKEN" "s").mp hmem
    exact absurd h.1 (by decide)
  · exact (additional_env_vars_allowlist
      [("SECRET_TOKEN", "s"), ("OVAL_A", "1")] "wf" "OVAL_A" "1").mpr
      ⟨Or.inl rfl, Or.inr ⟨by decide, by decide⟩⟩

end MarketingRuntime
